import Mathlib

/-!
Verification of the infrasonar python-libprobe core against its
natural-language specification.  The Python sources are shallowly
embedded: YAML documents become the inductive `Yaml`, in-place tree
mutation becomes pure tree transformation, dict state becomes
association lists with Python dict semantics, and the asyncio
protocol object becomes an explicit state machine.
-/

/-- A parsed YAML value, as produced by yaml.safe_load plus the
bytes values occurring in encrypted configuration leaves.  Mappings
are association lists of string keys (YAML mappings in this code base
use string keys only). -/
inductive Yaml where
  | null
  | bool (b : Bool)
  | int (n : Int)
  | str (s : String)
  | bytes (bs : List Nat)
  | list (items : List Yaml)
  | dict (entries : List (String × Yaml))
deriving Repr

mutual

/-- Structural boolean equality of YAML values (Python ==). -/
def ybeqY : Yaml → Yaml → Bool
  | .null, .null => true
  | .bool a, .bool b => a == b
  | .int a, .int b => a == b
  | .str a, .str b => a == b
  | .bytes a, .bytes b => a == b
  | .list a, .list b => ybeqL a b
  | .dict a, .dict b => ybeqE a b
  | _, _ => false

/-- Structural boolean equality of YAML sequences. -/
def ybeqL : List Yaml → List Yaml → Bool
  | [], [] => true
  | a :: as, b :: bs => ybeqY a b && ybeqL as bs
  | _, _ => false

/-- Structural boolean equality of YAML mappings. -/
def ybeqE : List (String × Yaml) → List (String × Yaml) → Bool
  | [], [] => true
  | (k, v) :: as, (k2, v2) :: bs => k == k2 && ybeqY v v2 && ybeqE as bs
  | _, _ => false

end

instance : BEq Yaml := ⟨ybeqY⟩

/-- Python truthiness of a YAML value. -/
def truthy : Yaml → Bool
  | .null => false
  | .bool b => b
  | .int n => n != 0
  | .str s => s != ""
  | .bytes bs => !bs.isEmpty
  | .list items => !items.isEmpty
  | .dict entries => !entries.isEmpty

/-- Python dict.get on an association list (first binding wins;
the parsed YAML mappings have unique keys). -/
def dget (d : List (String × Yaml)) (k : String) : Option Yaml :=
  (d.find? (fun kv => kv.1 == k)).map (fun kv => kv.2)

/-- Whether a key is one of the two sensitive keys of config.py,
secret and password. -/
def sensKey (k : String) : Bool :=
  k == "secret" || k == "password"

/-- Whether a YAML value is a mapping (isinstance(v, dict)). -/
def Yaml.isDict : Yaml → Bool
  | .dict _ => true
  | _ => false

/-- Abstract Fernet object: encryption of a UTF-8 string to bytes
and decryption back (the cryptography library is external). -/
structure Fern where
  enc : String → List Nat
  dec : List Nat → String

mutual

/-- Embedding of config.py encrypt acting on one value under key k:
a sensitive key with a plain-string value becomes the one-key mapping
with the ciphertext bytes; lists are traversed with only their mapping
items recursed into; mappings are recursed into; everything else is
left unchanged. -/
def encV (f : Fern) (k : String) : Yaml → Yaml
  | .str s =>
      if sensKey k then .dict [("encrypted", .bytes (f.enc s))] else .str s
  | .list xs => .list (encL f xs)
  | .dict d => .dict (encE f d)
  | v => v

/-- Embedding of the list traversal of encrypt: only items that are
mappings are encrypted (nested lists are not descended into). -/
def encL (f : Fern) : List Yaml → List Yaml
  | [] => []
  | .dict d :: rest => .dict (encE f d) :: encL f rest
  | v :: rest => v :: encL f rest

/-- Embedding of config.py encrypt on a mapping layer. -/
def encE (f : Fern) : List (String × Yaml) → List (String × Yaml)
  | [] => []
  | (k, v) :: rest => (k, encV f k v) :: encE f rest

end

mutual

/-- Embedding of config.py decrypt acting on one value under key k:
a sensitive key with a mapping value is replaced by the decrypted
plain string when the mapping holds truthy bytes under "encrypted"
(and is otherwise left whole, not recursed into); lists are traversed
with only their mapping items recursed into; other mappings are
recursed into. -/
def decV (f : Fern) (k : String) : Yaml → Yaml
  | .dict d =>
      if sensKey k then
        match dget d "encrypted" with
        | some (.bytes b) => if !b.isEmpty then .str (f.dec b) else .dict d
        | _ => .dict d
      else .dict (decE f d)
  | .list xs => .list (decL f xs)
  | v => v

/-- Embedding of the list traversal of decrypt. -/
def decL (f : Fern) : List Yaml → List Yaml
  | [] => []
  | .dict d :: rest => .dict (decE f d) :: decL f rest
  | v :: rest => v :: decL f rest

/-- Embedding of config.py decrypt on a mapping layer. -/
def decE (f : Fern) : List (String × Yaml) → List (String × Yaml)
  | [] => []
  | (k, v) :: rest => (k, decV f k v) :: decE f rest

end

mutual

/-- Well-formedness used by the amended round-trip claim: nowhere in
the tree does a sensitive key map directly to a mapping. -/
def wfY : Yaml → Bool
  | .list xs => wfL xs
  | .dict d => wfE d
  | _ => true

/-- List part of the well-formedness walk. -/
def wfL : List Yaml → Bool
  | [] => true
  | v :: rest => wfY v && wfL rest

/-- Mapping part of the well-formedness walk. -/
def wfE : List (String × Yaml) → Bool
  | [] => true
  | (k, v) :: rest => (!(sensKey k && v.isDict)) && wfY v && wfE rest

end

mutual

/-- Hypothesis of the round-trip claim as literally stated: every
leaf (non-container value) under a password or secret key is a plain
string. -/
def leafStrY : Yaml → Bool
  | .list xs => leafStrL xs
  | .dict d => leafStrE d
  | _ => true

/-- List part of the plain-string-leaves walk. -/
def leafStrL : List Yaml → Bool
  | [] => true
  | v :: rest => leafStrY v && leafStrL rest

/-- Mapping part of the plain-string-leaves walk: a sensitive key may
map to a container or to a plain string, never to another leaf kind. -/
def leafStrE : List (String × Yaml) → Bool
  | [] => true
  | (k, v) :: rest =>
      (!sensKey k ||
        (match v with
         | .str _ => true
         | .dict _ => true
         | .list _ => true
         | _ => false)) && leafStrY v && leafStrE rest

end

/-- A concrete invertible cipher standing in for Fernet: prepend a
marker byte to the code points of the string. -/
def cfEnc (s : String) : List Nat :=
  1 :: s.data.map Char.toNat

/-- Inverse of cfEnc: drop the marker byte and rebuild the string. -/
def cfDec (l : List Nat) : String :=
  String.mk ((l.drop 1).map Char.ofNat)

/-- The concrete Fern value built from cfEnc and cfDec. -/
def cf : Fern := ⟨cfEnc, cfDec⟩

/-- A well-formed local config document used as concrete witness
input (one probe block with a plain-string password). -/
def wdoc : List (String × Yaml) :=
  [("myprobe", .dict
    [("config", .dict
      [("username", .str "alice"), ("password", .str "secret password")])])]

/-- Document on which the round-trip claim fails as stated: a
password key mapping to a mapping that itself holds a plain-string
password leaf. -/
def badDoc : List (String × Yaml) :=
  [("password", .dict [("password", .str "x")])]

/-- Projection separating badDoc from its encrypt-decrypt image: does
the single inner entry hold a plain string? -/
def innerIsStr (d : List (String × Yaml)) : Bool :=
  match d with
  | [(_, .dict [(_, .str _)])] => true
  | _ => false

/-- Python dict lookup on an association list with arbitrary keys. -/
def alookup {α β : Type} [BEq α] (l : List (α × β)) (a : α) : Option β :=
  (l.find? (fun kv => kv.1 == a)).map (fun kv => kv.2)

/-- Python dict assignment d[a] = b on an association list: any old
binding of the key is dropped and the new binding appended. -/
def dinsert {α β : Type} [BEq α] (l : List (α × β)) (a : α) (b : β) :
    List (α × β) :=
  l.filter (fun kv => !(kv.1 == a)) ++ [(a, b)]

/-- Python dict.pop(a) on an association list (the removal part). -/
def dremove {α β : Type} [BEq α] (l : List (α × β)) (a : α) :
    List (α × β) :=
  l.filter (fun kv => !(kv.1 == a))

/-- Keys of an association list. -/
def keysOf {α β : Type} (l : List (α × β)) : List α := l.map Prod.fst

/-- Left-biased choice on options, modelling dict union where the
first map wins on a conflict. -/
def optOr {β : Type} : Option β → Option β → Option β
  | some v, _ => some v
  | none, o => o

/-- State of a future created by Protocol.request.  The
failedDisconnected state is what the specification predicts on
connection loss; the embedding shows the code never produces it. -/
inductive FState where
  | pending
  | resolvedF (body : Nat)
  | failedTimeout
  | failedDisconnected
deriving DecidableEq, Repr

/-- A pending-request table entry: the future plus the optional
timeout-timer task. -/
structure PReqEntry where
  fut : Nat
  timer : Option Nat
deriving DecidableEq, Repr

/-- State of the net/protocol.py Protocol object: receive buffer,
partial package, pending-request table, pid counter, transport. -/
structure PState where
  buffered : List Nat
  partialPkg : Option Nat
  requests : List (Nat × PReqEntry)
  futures : List (Nat × FState)
  pid : Nat
  transport : Option Unit
  nextFut : Nat
deriving Repr

/-- Freshly constructed Protocol object. -/
def initP : PState :=
  ⟨[], none, [], [], 0, none, 0⟩

/-- Protocol.connection_made: attach the transport. -/
def connectionMade (s : PState) : PState :=
  { s with transport := some () }

/-- Protocol.connection_lost: drop the transport, clear the partial
package and the buffered bytes.  The pending-request table and the
futures are not touched by the source. -/
def connectionLost (s : PState) : PState :=
  { s with transport := none, partialPkg := none, buffered := [] }

/-- Protocol.is_connected. -/
def isConnected (s : PState) : Bool :=
  s.transport.isSome

/-- Protocol.request: advance the pid counter modulo 2^16, start a
timer when a truthy timeout is given, record the pending entry and
the fresh pending future, then assert that the transport is attached
before writing; the error value models the AssertionError raised when
it is not (the mutations before the assert persist). -/
def requestOp (s : PState) (timeout : Option Nat) : PState × Except Unit Nat :=
  let pid1 := (s.pid + 1) % 65536
  let timer : Option Nat :=
    match timeout with
    | some t => if t != 0 then some pid1 else none
    | none => none
  let fut := s.nextFut
  let s1 : PState :=
    { s with pid := pid1,
             requests := dinsert s.requests pid1 ⟨fut, timer⟩,
             futures := dinsert s.futures fut .pending,
             nextFut := s.nextFut + 1 }
  (s1, match s.transport with
       | some _ => .ok fut
       | none => .error ())

/-- Protocol._timer after its sleep: pop the pending entry by pid and
fail its future with Timeout; a missing pid is only logged. -/
def timerFire (s : PState) (pid : Nat) : PState :=
  match alookup s.requests pid with
  | some e =>
      { s with requests := dremove s.requests pid,
               futures := dinsert s.futures e.fut .failedTimeout }
  | none => s

/-- Response dispatch through Protocol._get_future: pop the pending
entry by pid and resolve its future with the body; a missing pid is
only logged. -/
def responseRecv (s : PState) (pid : Nat) (body : Nat) : PState :=
  match alookup s.requests pid with
  | some e =>
      { s with requests := dremove s.requests pid,
               futures := dinsert s.futures e.fut (.resolvedF body) }
  | none => s

/-- Reachable protocol states: the initial object under any
interleaving of the five operations. -/
inductive PReach : PState → Prop
  | init : PReach initP
  | made {s : PState} : PReach s → PReach (connectionMade s)
  | lost {s : PState} : PReach s → PReach (connectionLost s)
  | req {s : PState} (t : Option Nat) : PReach s → PReach (requestOp s t).1
  | timer {s : PState} (pid : Nat) : PReach s → PReach (timerFire s pid)
  | resp {s : PState} (pid body : Nat) :
      PReach s → PReach (responseRecv s pid body)

/-- State reached by connecting, issuing one request and losing the
connection, used to refute the Disconnected part of the spec. -/
def lostState : PState :=
  connectionLost (requestOp (connectionMade initP) none).1

/-- Assignment path (asset_id, check_id). -/
abbrev CPath := Int × Int

/-- Assignment names (asset_name, check_key). -/
abbrev CNames := String × String

/-- One assignment configuration value: names plus check config. -/
abbrev CheckEntry := CNames × Yaml

/-- Status of an asyncio task wrapping a check loop: running,
completed normally (the coroutine returned, as after an IgnoreCheck
break), or cancelled (CancelledError propagated out, which is when
Task.cancelled() is true). -/
inductive TStatus where
  | running
  | doneNormal
  | cancelledT
deriving DecidableEq, Repr

/-- A task handle in the running-task map. -/
structure TaskH where
  tid : Nat
  st : TStatus
deriving DecidableEq, Repr

/-- Reconciler state: Probe._checks_config, Probe._checks and a
fresh-task counter. -/
structure RState where
  checksConfig : List (CPath × CheckEntry)
  checks : List (CPath × TaskH)
  nextTid : Nat
deriving Repr

/-- Step 4 of Probe._set_new_checks_config: spawn a fresh running
task for every desired path not already in the task map. -/
def spawnAll (newKeys : List CPath) (acc : List (CPath × TaskH))
    (tid : Nat) : List (CPath × TaskH) × Nat :=
  match newKeys with
  | [] => (acc, tid)
  | p :: rest =>
      if (alookup acc p).isSome then spawnAll rest acc tid
      else spawnAll rest (acc ++ [(p, ⟨tid, .running⟩)]) (tid + 1)

/-- Probe._set_new_checks_config: drop (cancelling) every task whose
path is no longer desired; drop a desired task whose config changed
and whose task has ended in cancelled state; install the new config;
spawn tasks for desired paths not in the task map.  The embedding
relies on the documented invariant that every key of the task map is
a key of the config map. -/
def setNewChecksConfig (new : List (CPath × CheckEntry)) (s : RState) :
    RState :=
  let kept := s.checks.filter (fun kv =>
    match alookup new kv.1 with
    | none => false
    | some e =>
        !((!(some e == alookup s.checksConfig kv.1)) &&
          kv.2.st == TStatus.cancelledT))
  let res := spawnAll (keysOf new) kept s.nextTid
  ⟨new, res.1, res.2⟩

/-- Probe._on_upsert_asset: keep only assignments of other assets,
then install the incoming checks whose check_key is registered. -/
def upsertNewConfig (old : List (CPath × CheckEntry)) (assetId : Int)
    (checks : List (CPath × CNames × Yaml)) (funs : List String) :
    List (CPath × CheckEntry) :=
  let kept := old.filter (fun kv => !(kv.1.1 == assetId))
  let incoming := (checks.filter (fun c => funs.contains c.2.1.2)).map
    (fun c => (c.1, (c.2.1, c.2.2)))
  incoming.foldl (fun d x => dinsert d x.1 x.2) kept

/-- The dict built from the incoming checks of an upsert alone,
restricted to registered check keys (later duplicates win, as in a
Python dict comprehension). -/
def incomingDict (checks : List (CPath × CNames × Yaml))
    (funs : List String) : List (CPath × CheckEntry) :=
  ((checks.filter (fun c => funs.contains c.2.1.2)).map
    (fun c => (c.1, (c.2.1, c.2.2)))).foldl
    (fun d x => dinsert d x.1 x.2) []

/-- The loop of _run_check_loop marking its own task as completed
after an IgnoreCheck break: the task stays in the map, done. -/
def ignoreCheckTerminate (p : CPath) (s : RState) : RState :=
  { s with checks := s.checks.map (fun kv =>
      if kv.1 == p then (kv.1, ⟨kv.2.tid, TStatus.doneNormal⟩) else kv) }

/-- Outcome of one user check invocation, after the inner translation
layer of _run_check_loop has mapped timeouts, wrong-shape results,
internal cancellation and unknown exceptions to CheckException. -/
inductive CheckOutcome where
  | ok (res : Yaml)
  | ignoreResult
  | ignoreCheck
  | incomplete (partRes : Yaml) (err : String)
  | checkError (err : String)
deriving Repr

/-- What one tick of _run_check_loop does with an outcome: what it
sends (result, error) and whether the loop continues. -/
structure TickEffect where
  emits : Option (Option Yaml × Option String)
  continues : Bool
deriving Repr

/-- The except-chain of _run_check_loop. -/
def tickEffect : CheckOutcome → TickEffect
  | .ok res => ⟨some (some res, none), true⟩
  | .ignoreResult => ⟨none, true⟩
  | .ignoreCheck => ⟨none, false⟩
  | .incomplete r e => ⟨some (some r, some e), true⟩
  | .checkError e => ⟨some (none, some e), true⟩

/-- Python equality of a YAML value against an int (True equals 1 and
False equals 0 in Python). -/
def pyEqInt (v : Yaml) (aid : Int) : Bool :=
  match v with
  | .int m => m == aid
  | .bool b => (if b then (1 : Int) else 0) == aid
  | _ => false

/-- The id test of config.py get_config: the id value equals the
asset id, or is a list containing it. -/
def idMatches (idv : Yaml) (aid : Int) : Bool :=
  pyEqInt idv aid ||
    (match idv with
     | .list xs => xs.any (fun e => pyEqInt e aid)
     | _ => false)

/-- Return a config mapping, or the empty mapping when the value is
missing or not a mapping. -/
def cfgOrEmpty : Option Yaml → Yaml
  | some (.dict d) => .dict d
  | _ => .dict []

/-- The assets loop of get_config: first mapping entry whose id
matches wins; non-mapping entries are skipped. -/
def findAssetCfg (aid : Int) : List Yaml → Option Yaml
  | [] => none
  | .dict ad :: rest =>
      if idMatches ((dget ad "id").getD .null) aid then
        some (cfgOrEmpty (dget ad "config"))
      else findAssetCfg aid rest
  | _ :: rest => findAssetCfg aid rest

/-- Embedding of config.py get_config.  The error value models the
TypeError Python raises when the assets value is truthy but not
iterable (a nonzero number or True); mappings, strings and bytes are
iterable but yield no mapping items, so the loop falls through. -/
def getConfig (conf : List (String × Yaml)) (name : String) (aid : Int) :
    Except Unit Yaml :=
  match dget conf name with
  | some (.dict pd) =>
      let assets := (dget pd "assets").getD .null
      if truthy assets then
        match assets with
        | .list xs =>
            match findAssetCfg aid xs with
            | some c => .ok c
            | none => .ok (cfgOrEmpty (dget pd "config"))
        | .dict _ => .ok (cfgOrEmpty (dget pd "config"))
        | .str _ => .ok (cfgOrEmpty (dget pd "config"))
        | .bytes _ => .ok (cfgOrEmpty (dget pd "config"))
        | _ => .error ()
      else .ok (cfgOrEmpty (dget pd "config"))
  | _ => .ok (.dict [])

/-- The resolution rule in the words of the specification: walk the
assets list for an entry whose id equals the asset id or whose id
list contains it and return its config map; otherwise the probe
config map; otherwise the empty map. -/
def specFindCfg (aid : Int) : List Yaml → Option Yaml
  | [] => none
  | entry :: rest =>
      match entry with
      | .dict ad =>
          if idMatches ((dget ad "id").getD .null) aid then
            some (cfgOrEmpty (dget ad "config"))
          else specFindCfg aid rest
      | _ => specFindCfg aid rest

/-- The specification-side resolve function (total). -/
def resolveSpec (conf : List (String × Yaml)) (name : String)
    (aid : Int) : Yaml :=
  match dget conf name with
  | some (.dict pd) =>
      match dget pd "assets" with
      | some (.list xs) =>
          match specFindCfg aid xs with
          | some c => c
          | none => cfgOrEmpty (dget pd "config")
      | _ => cfgOrEmpty (dget pd "config")
  | _ => .dict []

/-- The assets value of the named probe block is not a truthy
non-iterable (the only shape on which the source raises). -/
def assetsOk (conf : List (String × Yaml)) (name : String) : Bool :=
  match dget conf name with
  | some (.dict pd) =>
      match dget pd "assets" with
      | some (.int n) => n == 0
      | some (.bool b) => !b
      | _ => true
  | _ => true

/-- Embedding of the Python return value of config.py encrypt: the
function mutates in place and has no return statement, so every call
evaluates to None. -/
def encryptReturn (f : Fern) (doc : List (String × Yaml)) : Option Bool :=
  none

/-- Python truthiness of an optional bool standing for a value that
may be None. -/
def truthyOpt : Option Bool → Bool
  | none => false
  | some b => b

/-- Result of one Probe._read_local_config pass: whether the file was
written back, and the in-memory decrypted document. -/
structure ReadResult where
  wrote : Bool
  mem : Yaml
deriving Repr

/-- Embedding of Probe._read_local_config: skip when the mtime is
unchanged; parse; when the document is truthy, run encrypt, rewrite
the file only when the value returned by encrypt is truthy, then
decrypt for in-memory use; a falsy document is replaced by the empty
mapping.  The error value models the AttributeError raised when the
parsed document is truthy but not a mapping. -/
def readLocalConfig (f : Fern) (mtimeChanged : Bool) (prevMem : Yaml)
    (doc : Yaml) : Except Unit ReadResult :=
  if !mtimeChanged then .ok ⟨false, prevMem⟩
  else if truthy doc then
    match doc with
    | .dict d =>
        let changed := encryptReturn f d
        .ok ⟨truthyOpt changed, .dict (decE f (encE f d))⟩
    | _ => .error ()
  else .ok ⟨false, .dict []⟩

/-- Whether a read pass wrote the file back (false on error). -/
def wroteBack (r : Except Unit ReadResult) : Bool :=
  match r with
  | .ok res => res.wrote
  | .error _ => false

/-- A local config document with a plain-string password leaf and a
changed mtime: the input on which the spec promises a rewrite. -/
def passwordDoc : Yaml :=
  .dict [("myprobe", .dict [("config", .dict [("password", .str "hunter2")])])]

/-- The startup bound check of probe.py on the MAX_PACKAGE_SIZE
environment value, written with the chained Python comparison
1 > x > 2000. -/
def maxPackageSizeRejected (x : Int) : Bool :=
  1 > x && x > 2000

/-- The effective maximum package size in bytes: the environment
value in kilobytes (default 500) times 1000. -/
def maxPackageSizeBytes (envKB : Option Int) : Int :=
  envKB.getD 500 * 1000

/-- Number of decimal digits of a natural number. -/
def digitsN : Nat → Nat
  | n =>
    if _h : n < 10 then 1 else digitsN (n / 10) + 1
termination_by n => n
decreasing_by exact Nat.div_lt_self (by omega) (by omega)

/-- One DUMP frame as handed to the transport: the result field and
the error message, the parts of the body the claims talk about. -/
structure DumpFrame where
  result : Option Yaml
  errMsg : Option String
deriving Repr

/-- The synthetic CheckException message of Probe.send for an
oversized frame of n bytes. -/
def fallbackMsg (n : Nat) : String :=
  "data package too large (" ++ (Nat.repr n ++ " bytes)")

/-- The fallback frame: null result and the oversize error. -/
def fallbackFrame (n : Nat) : DumpFrame :=
  ⟨none, some (fallbackMsg n)⟩

/-- Modelled from the spec: the Package codec is opaque, so the
serialized size of the fallback DUMP frame replacing an oversized
frame of n bytes is modelled as a fixed frame-plus-error-dict
overhead plus the decimal length of n embedded in the message. -/
def fallbackFrameSize (n : Nat) : Nat :=
  88 + digitsN n

/-- Embedding of Probe.send with fuel: when the current frame of n
bytes exceeds the maximum, recurse with the fallback frame (nothing
is written on that branch); otherwise hand exactly this frame to the
transport when connected and drop it when not.  Running out of fuel
models unbounded recursion. -/
def sendSimF : Nat → Nat → Bool → Nat → DumpFrame → Option (List DumpFrame)
  | 0, _, _, _, _ => none
  | fuel + 1, maxSize, conn, n, fr =>
      if n > maxSize then
        sendSimF fuel maxSize conn (fallbackFrameSize n) (fallbackFrame n)
      else
        some (if conn then [fr] else [])

/-- Concrete assignment path used in counterexamples. -/
def cpath : CPath := (1, 2)

/-- A first assignment configuration for cpath. -/
def entry1 : CheckEntry := (("asset1", "mycheck"), .dict [("_interval", .int 10)])

/-- A second, changed assignment configuration for cpath. -/
def entry2 : CheckEntry := (("asset1", "mycheck"), .dict [("_interval", .int 20)])

/-- Reconciler state after a first reconciliation schedules cpath. -/
def recState0 : RState := setNewChecksConfig [(cpath, entry1)] ⟨[], [], 0⟩

/-- State after the check loop of cpath self-terminates with
IgnoreCheck. -/
def recState1 : RState := ignoreCheckTerminate cpath recState0

/-- State after a reconciliation that delivers a changed config for
cpath. -/
def recState2 : RState := setNewChecksConfig [(cpath, entry2)] recState1

/-- Concrete config document for the resolution witness. -/
def wconf : List (String × Yaml) :=
  [("myprobe", .dict
    [("assets", .list
      [.dict [("id", .int 123),
              ("config", .dict [("username", .str "bob")])]]),
     ("config", .dict [("username", .str "alice")])])]

mutual

/-- Round trip on a single value: when the sensitive key does not map
to a mapping and the value is well formed, decrypt undoes encrypt. -/
theorem dec_enc_V (f : Fern) (hd : ∀ s, f.dec (f.enc s) = s)
    (hne : ∀ s, (f.enc s).isEmpty = false) :
    ∀ (k : String) (v : Yaml), (sensKey k && v.isDict) = false → wfY v = true →
      decV f k (encV f k v) = v
  | _, .null, _, _ => by simp [encV, decV]
  | _, .bool b, _, _ => by simp [encV, decV]
  | _, .int n, _, _ => by simp [encV, decV]
  | _, .bytes bs, _, _ => by simp [encV, decV]
  | k, .str s, _, _ => by
      by_cases hs : sensKey k = true
      · simp [encV, decV, hs, dget, hne s, hd s]
      · simp only [Bool.not_eq_true] at hs
        simp [encV, decV, hs]
  | k, .list xs, _, hw => by
      simp only [encV, decV]
      rw [dec_enc_L f hd hne xs (by simpa [wfY] using hw)]
  | k, .dict d, h, hw => by
      have hk : sensKey k = false := by
        cases hsk : sensKey k with
        | false => rfl
        | true => simp [hsk, Yaml.isDict] at h
      simp only [encV, decV, hk, Bool.false_eq_true, if_false]
      rw [dec_enc_E f hd hne d (by simpa [wfY] using hw)]

/-- Round trip on the items of a sequence. -/
theorem dec_enc_L (f : Fern) (hd : ∀ s, f.dec (f.enc s) = s)
    (hne : ∀ s, (f.enc s).isEmpty = false) :
    ∀ (xs : List Yaml), wfL xs = true → decL f (encL f xs) = xs
  | [], _ => rfl
  | .dict d :: rest, hw => by
      have h1 : wfE d = true := by simp [wfL, wfY] at hw; exact hw.1
      have h2 : wfL rest = true := by simp [wfL] at hw; exact hw.2
      simp only [encL, decL]
      rw [dec_enc_E f hd hne d h1, dec_enc_L f hd hne rest h2]
  | .null :: rest, hw => by
      simp only [encL, decL]
      rw [dec_enc_L f hd hne rest (by simp [wfL] at hw; exact hw.2)]
  | .bool b :: rest, hw => by
      simp only [encL, decL]
      rw [dec_enc_L f hd hne rest (by simp [wfL] at hw; exact hw.2)]
  | .int n :: rest, hw => by
      simp only [encL, decL]
      rw [dec_enc_L f hd hne rest (by simp [wfL] at hw; exact hw.2)]
  | .str s :: rest, hw => by
      simp only [encL, decL]
      rw [dec_enc_L f hd hne rest (by simp [wfL] at hw; exact hw.2)]
  | .bytes bs :: rest, hw => by
      simp only [encL, decL]
      rw [dec_enc_L f hd hne rest (by simp [wfL] at hw; exact hw.2)]
  | .list ys :: rest, hw => by
      simp only [encL, decL]
      rw [dec_enc_L f hd hne rest (by simp [wfL] at hw; exact hw.2)]

/-- Round trip on a mapping layer. -/
theorem dec_enc_E (f : Fern) (hd : ∀ s, f.dec (f.enc s) = s)
    (hne : ∀ s, (f.enc s).isEmpty = false) :
    ∀ (d : List (String × Yaml)), wfE d = true → decE f (encE f d) = d
  | [], _ => rfl
  | (k, v) :: rest, hw => by
      simp only [wfE, Bool.and_eq_true, Bool.not_eq_true'] at hw
      obtain ⟨⟨h0, h1⟩, h2⟩ := hw
      simp only [encE, decE]
      rw [dec_enc_V f hd hne k v h0 h1, dec_enc_E f hd hne rest h2]

end

theorem cf_dec_enc (s : String) : cf.dec (cf.enc s) = s := by
  cases s with
  | mk data =>
    simp only [cf, cfEnc, cfDec, List.drop_succ_cons, List.drop_zero,
      List.map_map]
    congr 1
    exact (List.map_congr_left fun c _ => Char.ofNat_toNat c).trans
      (List.map_id data)

theorem cf_enc_ne (s : String) : (cf.enc s).isEmpty = false := by
  simp [cf, cfEnc]

/-- C7 counterexample: with a cipher that round-trips every string
and produces nonempty ciphertexts, and a document all of whose
password or secret leaves are plain strings, decrypt after encrypt
does not restore the document: the inner password leaf of badDoc is
encrypted by the walk but never decrypted, because decrypt does not
descend into a mapping that sits directly under a sensitive key. -/
theorem c7_roundtrip_counterexample :
    leafStrE badDoc = true ∧ decE cf (encE cf badDoc) ≠ badDoc := by
  refine ⟨by decide, fun h => absurd (congrArg innerIsStr h) (by decide)⟩

/-- C7 (amended): on documents where no password or secret key maps
directly to a mapping, encrypt then decrypt with the same cipher is
the identity; and decrypting a one-key encrypted mapping under a
sensitive key and re-encrypting yields a ciphertext that decrypts
back to the same plaintext string. -/
theorem c7_roundtrip_amended (f : Fern)
    (hd : ∀ s, f.dec (f.enc s) = s)
    (hne : ∀ s, (f.enc s).isEmpty = false)
    (doc : List (String × Yaml)) (hwf : wfE doc = true)
    (k : String) (b : List Nat)
    (hk : sensKey k = true) (hb : b.isEmpty = false) :
    decE f (encE f doc) = doc ∧
    decE f (encE f (decE f [(k, .dict [("encrypted", .bytes b)])]))
      = decE f [(k, .dict [("encrypted", .bytes b)])] := by
  constructor
  · exact dec_enc_E f hd hne doc hwf
  · simp [decE, decV, encE, encV, hk, dget, hb, hne, hd]

/-- Witness for the amended round trip at the concrete cipher and a
concrete document. -/
theorem c7_roundtrip_amended_witness :
    wfE wdoc = true ∧ sensKey "password" = true ∧
      decE cf (encE cf wdoc) = wdoc :=
  ⟨by decide, by decide,
    (c7_roundtrip_amended cf cf_dec_enc cf_enc_ne wdoc (by decide)
      "password" [5] (by decide) (by decide)).1⟩

theorem optOr_none_right {β : Type} (x : Option β) : optOr x none = x := by
  cases x <;> rfl

theorem alookup_cons {α β : Type} [BEq α] (k : α) (v : β)
    (l : List (α × β)) (a : α) :
    alookup ((k, v) :: l) a = if k == a then some v else alookup l a := by
  by_cases h : (k == a) = true
  · simp [alookup, List.find?_cons_of_pos, h]
  · simp only [Bool.not_eq_true] at h
    simp [alookup, List.find?_cons_of_neg, h]

theorem alookup_append {α β : Type} [BEq α] (l1 l2 : List (α × β)) (a : α) :
    alookup (l1 ++ l2) a = optOr (alookup l1 a) (alookup l2 a) := by
  induction l1 with
  | nil => simp [alookup, optOr]
  | cons kv rest ih =>
    obtain ⟨k, v⟩ := kv
    rw [List.cons_append, alookup_cons, alookup_cons]
    by_cases h : (k == a) = true
    · simp [h, optOr]
    · simp only [Bool.not_eq_true] at h
      simp [h, ih]

theorem alookup_filter_key {α β : Type} [BEq α] [LawfulBEq α]
    (q : α → Bool) (l : List (α × β)) (a : α) :
    alookup (l.filter (fun kv => q kv.1)) a =
      if q a then alookup l a else none := by
  induction l with
  | nil => simp [alookup]
  | cons kv rest ih =>
    obtain ⟨k, v⟩ := kv
    rw [List.filter_cons]
    by_cases hk : (k == a) = true
    · have hka : k = a := eq_of_beq hk
      subst hka
      cases hq : q k with
      | false => simp [hq, ih, alookup_cons, hk]
      | true => simp [hq, alookup_cons, hk]
    · have hk2 : (k == a) = false := by
        cases hkk : (k == a)
        · rfl
        · exact absurd hkk hk
      cases hq : q k with
      | false => simp [hq, ih, alookup_cons, hk2]
      | true => simp [hq, ih, alookup_cons, hk2]

theorem alookup_dinsert {α β : Type} [BEq α] [LawfulBEq α]
    (l : List (α × β)) (a : α) (b : β) (p : α) :
    alookup (dinsert l a b) p = if p == a then some b else alookup l p := by
  unfold dinsert
  rw [alookup_append]
  have hfk := alookup_filter_key (fun x => !(x == a)) l p
  simp only [] at hfk
  rw [hfk]
  by_cases hp : (p == a) = true
  · have : p = a := eq_of_beq hp
    subst this
    rw [hp]
    simp [alookup_cons, hp, optOr]
  · have hp2 : (p == a) = false := by
      cases hpp : (p == a)
      · rfl
      · exact absurd hpp hp
    have hap : (a == p) = false := by
      cases hq : (a == p)
      · rfl
      · exact absurd (beq_iff_eq.mpr (eq_of_beq hq).symm) (by simp [hp2])
    rw [hp2]
    simp only [Bool.not_false, if_pos rfl, alookup_cons, hap]
    simp [alookup, optOr_none_right]

theorem alookup_foldl_dinsert {α β : Type} [BEq α] [LawfulBEq α]
    (items : List (α × β)) (d : List (α × β)) (p : α) :
    alookup (items.foldl (fun d x => dinsert d x.1 x.2) d) p =
      optOr (alookup (items.foldl (fun d x => dinsert d x.1 x.2) []) p)
        (alookup d p) := by
  induction items generalizing d with
  | nil => simp [alookup, optOr]
  | cons x xs ih =>
    simp only [List.foldl_cons]
    rw [ih (dinsert d x.1 x.2), ih (dinsert [] x.1 x.2),
      alookup_dinsert, alookup_dinsert]
    cases hA : alookup (xs.foldl (fun d x => dinsert d x.1 x.2) []) p <;>
      by_cases hp : (p == x.1) = true <;>
        simp [optOr, hp, alookup]

/-- C5: the new desired map computed by an upsert is, pointwise, the
incoming checks restricted to registered check keys, overriding the
old map restricted to paths of other assets; unknown check keys are
dropped and other assets are untouched. -/
theorem c5_upsert_asset_map (old : List (CPath × CheckEntry))
    (assetId : Int) (checks : List (CPath × CNames × Yaml))
    (funs : List String) (p : CPath) :
    alookup (upsertNewConfig old assetId checks funs) p =
      optOr (alookup (incomingDict checks funs) p)
        (if (p.1 == assetId) = true then none else alookup old p) := by
  unfold upsertNewConfig incomingDict
  rw [alookup_foldl_dinsert]
  congr 1
  have hfk := alookup_filter_key (fun x : CPath => !(x.1 == assetId)) old p
  simp only [] at hfk
  rw [hfk]
  cases h : (p.1 == assetId) <;> simp [h]

theorem alookup_append_left {α β : Type} [BEq α] (l1 l2 : List (α × β))
    (a : α) (v : β) (h : alookup l1 a = some v) :
    alookup (l1 ++ l2) a = some v := by
  rw [alookup_append, h]
  rfl

theorem alookup_filter_of_first {α β : Type} [BEq α] [LawfulBEq α]
    (l : List (α × β)) (q : α × β → Bool) (a : α) (v : β)
    (h : alookup l a = some v) (hq : q (a, v) = true) :
    alookup (l.filter q) a = some v := by
  induction l with
  | nil => simp [alookup] at h
  | cons kv rest ih =>
    obtain ⟨k, w⟩ := kv
    rw [List.filter_cons]
    by_cases hk : (k == a) = true
    · have hka : k = a := eq_of_beq hk
      subst hka
      rw [alookup_cons, hk] at h
      simp at h
      subst h
      rw [if_pos (by simpa using hq)]
      simp [alookup_cons, hk]
    · have hk2 : (k == a) = false := by
        cases hkk : (k == a)
        · rfl
        · exact absurd hkk hk
      rw [alookup_cons, hk2] at h
      simp at h
      cases hqk : q (k, w) with
      | true =>
        rw [if_pos (by simp [hqk])]
        rw [alookup_cons, hk2]
        simp [ih h]
      | false =>
        rw [if_neg (by simp [hqk])]
        exact ih h

theorem alookup_map_update {α β : Type} [BEq α] (l : List (α × β))
    (p : α) (g : β → β) :
    alookup (l.map (fun kv => if kv.1 == p then (kv.1, g kv.2) else kv)) p
      = (alookup l p).map g := by
  induction l with
  | nil => rfl
  | cons kv rest ih =>
    obtain ⟨k, w⟩ := kv
    cases hk : (k == p) with
    | true => simp [alookup_cons, hk]
    | false => simp [alookup_cons, hk, ih]

theorem spawnAll_keeps (keys : List CPath) (acc : List (CPath × TaskH))
    (tid : Nat) (p : CPath) (v : TaskH) (h : alookup acc p = some v) :
    alookup (spawnAll keys acc tid).1 p = some v := by
  induction keys generalizing acc tid with
  | nil => simpa [spawnAll]
  | cons q rest ih =>
    simp only [spawnAll]
    cases hq : (alookup acc q).isSome with
    | true =>
      rw [if_pos (by simp [hq])]
      exact ih acc tid h
    | false =>
      rw [if_neg (by simp [hq])]
      exact ih _ _ (alookup_append_left acc [(q, ⟨tid, .running⟩)] p v h)

/-- C3 (amended): an IgnoreCheck raised by the user check terminates
the tick with no emission, but the path stays present in the task map
bound to the now completed (not cancelled) task, and a subsequent
reconciliation that still desires the path, with whatever changed
config, keeps this dead entry and does not schedule a fresh task:
only a cancelled task is replaced on a config change. -/
theorem c3_ignorecheck_amended (s : RState) (p : CPath) (t : TaskH)
    (new : List (CPath × CheckEntry)) (e : CheckEntry)
    (hT : alookup s.checks p = some t)
    (hnew : alookup new p = some e) :
    tickEffect .ignoreCheck = ⟨none, false⟩ ∧
    alookup (ignoreCheckTerminate p s).checks p
      = some ⟨t.tid, .doneNormal⟩ ∧
    alookup (setNewChecksConfig new (ignoreCheckTerminate p s)).checks p
      = some ⟨t.tid, .doneNormal⟩ := by
  have hmap := alookup_map_update s.checks p
    (fun τ => TaskH.mk τ.tid TStatus.doneNormal)
  simp only [] at hmap
  have h2 : alookup (ignoreCheckTerminate p s).checks p
      = some ⟨t.tid, .doneNormal⟩ := by
    simp only [ignoreCheckTerminate]
    rw [hmap, hT]
    rfl
  refine ⟨rfl, h2, ?_⟩
  simp only [setNewChecksConfig]
  refine spawnAll_keeps _ _ _ _ _ ?_
  refine alookup_filter_of_first _ _ _ _ h2 ?_
  simp only [hnew]
  simp

/-- Witness for the amended IgnoreCheck claim at a concrete
reconciler state. -/
theorem c3_ignorecheck_amended_witness :
    alookup recState0.checks cpath = some ⟨0, .running⟩ ∧
    alookup [(cpath, entry2)] cpath = some entry2 ∧
    alookup (setNewChecksConfig [(cpath, entry2)]
      (ignoreCheckTerminate cpath recState0)).checks cpath
        = some ⟨0, .doneNormal⟩ :=
  ⟨by decide, rfl,
    (c3_ignorecheck_amended recState0 cpath ⟨0, .running⟩
      [(cpath, entry2)] entry2 (by decide) rfl).2.2⟩

/-- C3 counterexample: after the check loop at cpath self-terminates
with IgnoreCheck, the path is still present in the running-task map,
bound to a completed task, and a reconciliation delivering a changed
config for the path still leaves that same dead task there: the check
is not re-scheduled, contrary to the claim. -/
theorem c3_ignorecheck_counterexample :
    (tickEffect .ignoreCheck).emits = none ∧
    alookup recState1.checks cpath = some ⟨0, .doneNormal⟩ ∧
    alookup recState2.checks cpath = some ⟨0, .doneNormal⟩ ∧
    TaskH.mk 0 .doneNormal ≠ TaskH.mk 0 .running := by
  exact ⟨rfl, by decide, by decide, by decide⟩

theorem keys_filter_nodup {α β : Type} (l : List (α × β))
    (q : α × β → Bool) (h : (keysOf l).Nodup) :
    (keysOf (l.filter q)).Nodup := by
  have hsub : List.Sublist ((l.filter q).map Prod.fst) (l.map Prod.fst) :=
    (List.filter_sublist l).map Prod.fst
  exact List.Nodup.sublist hsub h

theorem keys_dinsert_nodup {α β : Type} [BEq α] [LawfulBEq α]
    (l : List (α × β)) (a : α) (b : β) (h : (keysOf l).Nodup) :
    (keysOf (dinsert l a b)).Nodup := by
  unfold dinsert keysOf
  rw [List.map_append]
  refine List.Nodup.append (keys_filter_nodup l _ h) (by simp) ?_
  intro x hx hx2
  simp at hx2
  subst hx2
  obtain ⟨kv, hkv, hfst⟩ := List.mem_map.mp hx
  have hmem := List.of_mem_filter hkv
  simp [hfst] at hmem

/-- Invariant of the protocol state machine: the pending table has
pairwise distinct pids and the pid counter stays below 2^16. -/
theorem protoInv (s : PState) (h : PReach s) :
    (keysOf s.requests).Nodup ∧ s.pid < 65536 := by
  induction h with
  | init => exact ⟨List.nodup_nil, by decide⟩
  | made _ ih => exact ih
  | lost _ ih => exact ih
  | req t _ ih =>
    exact ⟨keys_dinsert_nodup _ _ _ ih.1, Nat.mod_lt _ (by omega)⟩
  | timer pid _ ih =>
    unfold timerFire
    split
    · exact ⟨keys_filter_nodup _ _ ih.1, ih.2⟩
    · exact ih
  | resp pid body _ ih =>
    unfold responseRecv
    split
    · exact ⟨keys_filter_nodup _ _ ih.1, ih.2⟩
    · exact ih

/-- C8: in every reachable protocol state the pids of the pending
table are pairwise distinct, the pid counter stays in the interval
below 2^16, and every request call advances the counter by exactly
one modulo 2^16 and assigns that counter value as the new pid. -/
theorem c8_pid_cycle_and_unique (s : PState) (h : PReach s) :
    (keysOf s.requests).Nodup ∧ s.pid < 65536 ∧
      (∀ t : Option Nat, ((requestOp s t).1).pid = (s.pid + 1) % 65536) :=
  ⟨(protoInv s h).1, (protoInv s h).2, fun _t => rfl⟩

/-- Witness for the pid invariant at the initial protocol state. -/
theorem c8_pid_cycle_and_unique_witness :
    (keysOf initP.requests).Nodup ∧ initP.pid < 65536 ∧
      ((requestOp initP (some 5)).1).pid = (initP.pid + 1) % 65536 :=
  ⟨(c8_pid_cycle_and_unique initP PReach.init).1,
   (c8_pid_cycle_and_unique initP PReach.init).2.1,
   (c8_pid_cycle_and_unique initP PReach.init).2.2 (some 5)⟩

/-- C10: a request while the transport is absent does not produce a
future: the call itself fails the assertion in request, and
is_connected reports false, so callers must check it first. -/
theorem c10_request_requires_transport (s : PState) (t : Option Nat)
    (h : s.transport = none) :
    (requestOp s t).2 = .error () ∧ isConnected s = false := by
  constructor
  · simp [requestOp, h]
  · simp [isConnected, h]

/-- Witness for the request assertion at the initial state, which has
no transport. -/
theorem c10_request_requires_transport_witness :
    initP.transport = none ∧ (requestOp initP (some 3)).2 = .error () ∧
      isConnected initP = false :=
  ⟨rfl, (c10_request_requires_transport initP (some 3) rfl).1,
    (c10_request_requires_transport initP (some 3) rfl).2⟩

/-- C1 (amended): connection_lost clears the buffered bytes and the
partial package and drops the transport reference, but it leaves the
pending-request table and every future untouched: no pending future
is failed with Disconnected (one can only fail later with Timeout
through its timer). -/
theorem c1_connection_lost_amended (s : PState) :
    (connectionLost s).buffered = [] ∧
    (connectionLost s).partialPkg = none ∧
    (connectionLost s).transport = none ∧
    (connectionLost s).requests = s.requests ∧
    (connectionLost s).futures = s.futures :=
  ⟨rfl, rfl, rfl, rfl, rfl⟩

/-- C1 counterexample: connect, issue one request, lose the
connection: the pending entry for pid 1 is still in the table and its
future is still pending, not failed with Disconnected. -/
theorem c1_connection_lost_counterexample :
    alookup lostState.requests 1 = some ⟨0, none⟩ ∧
    alookup lostState.futures 0 = some FState.pending ∧
    FState.pending ≠ FState.failedDisconnected := by
  exact ⟨by decide, by decide, by decide⟩

/-- C2: the config-read pass never writes the file back, whatever the
document: encrypt has no return statement, so the changed flag tested
by the rewrite branch is always None and the branch is dead; in
particular no rewrite happens for a document with a plain-string
password leaf and a changed mtime, where the spec promises one. -/
theorem c2_read_config_never_rewrites :
    (∀ (f : Fern) (mt : Bool) (prev doc : Yaml),
      wroteBack (readLocalConfig f mt prev doc) = false) ∧
    wroteBack (readLocalConfig cf true .null passwordDoc) = false := by
  refine ⟨fun f mt prev doc => ?_, rfl⟩
  unfold readLocalConfig wroteBack
  by_cases hmt : mt = true
  · simp only [hmt]
    by_cases ht : truthy doc = true
    · simp only [ht, if_true]
      cases doc <;> simp [truthyOpt, encryptReturn]
    · simp only [Bool.not_eq_true] at ht
      simp [ht]
  · simp only [Bool.not_eq_true] at hmt
    simp [hmt]

/-- C4: the startup bound check on MAX_PACKAGE_SIZE is dead code: the
chained comparison 1 > x > 2000 is false for every integer, so no
value, however far outside [1, 2000], is rejected; the default of
500 KB does hold. -/
theorem c4_bounds_check_dead :
    (∀ x : Int, maxPackageSizeRejected x = false) ∧
    maxPackageSizeRejected 5000 = false ∧
    maxPackageSizeRejected 0 = false ∧
    maxPackageSizeBytes none = 500 * 1000 := by
  refine ⟨fun x => ?_, by decide, by decide, rfl⟩
  unfold maxPackageSizeRejected
  by_cases h : (1 : Int) > x
  · have h2 : ¬ x > 2000 := by omega
    simp [h, h2]
  · simp [h]

theorem specFind_eq (aid : Int) (xs : List Yaml) :
    findAssetCfg aid xs = specFindCfg aid xs := by
  induction xs with
  | nil => rfl
  | cons x rest ih => cases x <;> simp [findAssetCfg, specFindCfg, ih]

theorem cfgOrEmpty_isDict (o : Option Yaml) :
    (cfgOrEmpty o).isDict = true := by
  unfold cfgOrEmpty
  split <;> rfl

theorem specFindCfg_isDict (aid : Int) (xs : List Yaml) (c : Yaml)
    (h : specFindCfg aid xs = some c) : c.isDict = true := by
  induction xs with
  | nil => simp [specFindCfg] at h
  | cons x rest ih =>
    cases x <;> simp only [specFindCfg] at h <;> try exact ih h
    case dict ad =>
      by_cases hm : idMatches ((dget ad "id").getD .null) aid = true
      · rw [if_pos hm] at h
        obtain rfl : cfgOrEmpty (dget ad "config") = c := by
          simpa using h
        exact cfgOrEmpty_isDict _
      · rw [if_neg hm] at h
        exact ih h

/-- C6: whenever the assets value of the probe block is not a truthy
non-iterable (the one shape on which the source raises), get_config
returns exactly the resolution rule of the spec: the config map of
the first assets entry whose id equals the asset id or whose id list
contains it, else the probe config map, else the empty map, and the
returned value is always a mapping, never null or a non-mapping. -/
theorem c6_get_config_resolution (conf : List (String × Yaml))
    (name : String) (aid : Int) (h : assetsOk conf name = true) :
    getConfig conf name aid = .ok (resolveSpec conf name aid) ∧
      (resolveSpec conf name aid).isDict = true := by
  cases hc : dget conf name with
  | none =>
    simp only [getConfig, resolveSpec, hc]
    exact ⟨trivial, rfl⟩
  | some v =>
    cases v with
    | null => simp only [getConfig, resolveSpec, hc]; exact ⟨trivial, rfl⟩
    | bool b => simp only [getConfig, resolveSpec, hc]; exact ⟨trivial, rfl⟩
    | int n => simp only [getConfig, resolveSpec, hc]; exact ⟨trivial, rfl⟩
    | str s => simp only [getConfig, resolveSpec, hc]; exact ⟨trivial, rfl⟩
    | bytes bs => simp only [getConfig, resolveSpec, hc]; exact ⟨trivial, rfl⟩
    | list xs => simp only [getConfig, resolveSpec, hc]; exact ⟨trivial, rfl⟩
    | dict pd =>
      simp only [assetsOk, hc] at h
      simp only [getConfig, resolveSpec, hc]
      cases ha : dget pd "assets" with
      | none =>
        simp only [Option.getD_none]
        refine ⟨?_, cfgOrEmpty_isDict _⟩
        simp [truthy]
      | some a =>
        simp only [ha] at h
        cases a with
        | null =>
          simp only [Option.getD_some]
          refine ⟨?_, cfgOrEmpty_isDict _⟩
          simp [truthy]
        | bool b =>
          have hb : b = false := by
            cases b
            · rfl
            · simpa using h
          subst hb
          simp only [Option.getD_some]
          refine ⟨?_, cfgOrEmpty_isDict _⟩
          simp [truthy]
        | int n =>
          have hn : n = 0 := by simpa using h
          subst hn
          simp only [Option.getD_some]
          refine ⟨?_, cfgOrEmpty_isDict _⟩
          simp [truthy]
        | str s =>
          simp only [Option.getD_some]
          refine ⟨?_, cfgOrEmpty_isDict _⟩
          simp only [truthy]
          split <;> rfl
        | bytes bs =>
          simp only [Option.getD_some]
          refine ⟨?_, cfgOrEmpty_isDict _⟩
          simp only [truthy]
          split <;> rfl
        | dict d =>
          simp only [Option.getD_some]
          refine ⟨?_, cfgOrEmpty_isDict _⟩
          simp only [truthy]
          split <;> rfl
        | list xs =>
          cases xs with
          | nil =>
            simp only [Option.getD_some, truthy, specFindCfg]
            refine ⟨?_, cfgOrEmpty_isDict _⟩
            simp
          | cons x rest =>
            simp only [Option.getD_some, truthy, List.isEmpty_cons,
              Bool.not_false, if_pos rfl, specFind_eq]
            cases hf : specFindCfg aid (x :: rest) with
            | none =>
              simp only [hf]
              exact ⟨rfl, cfgOrEmpty_isDict _⟩
            | some c =>
              simp only [hf]
              exact ⟨rfl, specFindCfg_isDict aid (x :: rest) c hf⟩

/-- Witness for the resolution rule on a concrete document with one
matching asset entry. -/
theorem c6_get_config_resolution_witness :
    assetsOk wconf "myprobe" = true ∧
    getConfig wconf "myprobe" 123 = .ok (resolveSpec wconf "myprobe" 123) ∧
    (resolveSpec wconf "myprobe" 123).isDict = true :=
  ⟨by decide,
   (c6_get_config_resolution wconf "myprobe" 123 (by decide)).1,
   (c6_get_config_resolution wconf "myprobe" 123 (by decide)).2⟩

theorem digitsN_lt10 (n : Nat) (h : n < 10) : digitsN n = 1 := by
  rw [digitsN]
  simp [h]

theorem digitsN_ge10 (n : Nat) (h : ¬ n < 10) :
    digitsN n = digitsN (n / 10) + 1 := by
  conv_lhs => rw [digitsN]
  simp [h]

theorem digitsN_le (n : Nat) : digitsN n ≤ n / 100 + 3 := by
  induction n using Nat.strong_induction_on with
  | _ n ih =>
    by_cases h10 : n < 10
    · rw [digitsN_lt10 n h10]
      omega
    · rw [digitsN_ge10 n h10]
      by_cases h100 : n < 100
      · rw [digitsN_lt10 (n / 10) (by omega)]
        omega
      · by_cases h1000 : n < 1000
        · rw [digitsN_ge10 (n / 10) (by omega)]
          rw [digitsN_lt10 (n / 10 / 10) (by omega)]
          omega
        · have hih := ih (n / 10) (by omega)
          have hdd : n / 10 / 100 = n / 1000 := by
            rw [Nat.div_div_eq_div_mul]
          omega

theorem fallbackFrameSize_lt (maxSize n : Nat) (hmax : 1000 ≤ maxSize)
    (h : maxSize < n) : fallbackFrameSize n < n := by
  have hle := digitsN_le n
  unfold fallbackFrameSize
  omega

theorem sendSimF_spec (maxSize : Nat) (hmax : 1000 ≤ maxSize) :
    ∀ n : Nat, ∀ fuel : Nat, n < fuel → ∀ (conn : Bool) (fr : DumpFrame),
      ∃ frames, sendSimF fuel maxSize conn n fr = some frames ∧
        frames.length ≤ 1 ∧ (conn = true → frames.length = 1) ∧
        (∀ g ∈ frames, g = fr ∨ ∃ m, g = fallbackFrame m) ∧
        (maxSize < n → ∀ g ∈ frames, ∃ m, g = fallbackFrame m) := by
  intro n
  induction n using Nat.strong_induction_on with
  | _ n ih =>
    intro fuel hfuel conn fr
    obtain ⟨f, rfl⟩ : ∃ f, fuel = f + 1 := ⟨fuel - 1, by omega⟩
    by_cases hover : n > maxSize
    · have hlt := fallbackFrameSize_lt maxSize n hmax hover
      obtain ⟨frames, heq, h1, h2, h3, _h4⟩ :=
        ih (fallbackFrameSize n) hlt f (by omega) conn (fallbackFrame n)
      refine ⟨frames, ?_, h1, h2, ?_, ?_⟩
      · simp only [sendSimF, if_pos hover]
        exact heq
      · intro g hg
        rcases h3 g hg with h | h
        · exact Or.inr ⟨n, h⟩
        · exact Or.inr h
      · intro _ g hg
        rcases h3 g hg with h | h
        · exact ⟨n, h⟩
        · exact h
    · refine ⟨if conn then [fr] else [], ?_, ?_, ?_, ?_, ?_⟩
      · simp only [sendSimF, if_neg hover]
      · cases conn <;> simp
      · intro hc
        subst hc
        simp
      · intro g hg
        cases conn with
        | true =>
          simp at hg
          exact Or.inl hg
        | false => simp at hg
      · intro hov
        exact absurd hov (by omega)

/-- C9: the oversize handler of Probe.send always terminates within
the fuel bound, hands at most one frame per tick to the transport
(exactly one when connected), and when the original frame exceeds the
maximum, the frame it does emit is the synthetic fallback: null
result with an error message starting with "data package too large".
The maximum is any legal value, at least one kilobyte. -/
theorem c9_oversize_handler_bounded (maxSize n : Nat) (conn : Bool)
    (res : Option Yaml) (hmax : 1000 ≤ maxSize) :
    ∃ frames, sendSimF (n + 1) maxSize conn n ⟨res, none⟩ = some frames ∧
      frames.length ≤ 1 ∧ (conn = true → frames.length = 1) ∧
      (maxSize < n → ∀ g ∈ frames, g.result = none ∧
        ∃ m, g.errMsg = some ("data package too large ("
          ++ (Nat.repr m ++ " bytes)"))) := by
  obtain ⟨frames, heq, h1, h2, _h3, h4⟩ :=
    sendSimF_spec maxSize hmax n (n + 1) (by omega) conn ⟨res, none⟩
  refine ⟨frames, heq, h1, h2, fun hov g hg => ?_⟩
  obtain ⟨m, rfl⟩ := h4 hov g hg
  exact ⟨rfl, m, rfl⟩

/-- Witness for the oversize handler: a one-megabyte frame against
the default 500 KB limit, connected. -/
theorem c9_oversize_handler_bounded_witness :
    (1000 ≤ 500000) ∧
    ∃ frames,
      sendSimF (1000000 + 1) 500000 true 1000000 ⟨some (.str "big"), none⟩
        = some frames ∧
      frames.length ≤ 1 ∧ (true = true → frames.length = 1) ∧
      (500000 < 1000000 → ∀ g ∈ frames, g.result = none ∧
        ∃ m, g.errMsg = some ("data package too large ("
          ++ (Nat.repr m ++ " bytes)"))) :=
  ⟨by omega,
    c9_oversize_handler_bounded 500000 1000000 true (some (.str "big"))
      (by omega)⟩
